import Mathlib

/-!
# Verification of the PR-description generator core

A shallow embedding of the change-extraction, classification and report
pipeline of the `pr-description-generator` extension (`src/extension.ts`,
`src/template.ts`, `src/ai/providers.ts`), together with proofs of the
specified properties.

Text is modelled as `List Char` (JavaScript strings are sequences of
code units; all inputs involved are plain text), and the JavaScript
string primitives used by the source (`split`, `includes`, `startsWith`,
`endsWith`, `trim`, `toLowerCase`, `slice`) are given executable
structural definitions below.
-/

namespace PRD

/-- Character list of a string literal (the embedding's text type). -/
def str (s : String) : List Char := s.data

/-- JS `a.startsWith(pat)` on char lists (first argument is the pattern). -/
def startsWithChars : List Char → List Char → Bool
  | [], _ => true
  | _ :: _, [] => false
  | p :: ps, c :: cs => p == c && startsWithChars ps cs

/-- JS `a.endsWith(pat)` on char lists. -/
def endsWithChars (pat s : List Char) : Bool :=
  startsWithChars pat.reverse s.reverse

/-- JS `a.includes(pat)` on char lists. -/
def containsChars (pat : List Char) : List Char → Bool
  | [] => startsWithChars pat []
  | c :: cs => startsWithChars pat (c :: cs) || containsChars pat cs

/-- JS `a.toLowerCase()` (ASCII, which is all the rules use). -/
def toLowerChars (s : List Char) : List Char := s.map Char.toLower

/-- JS `a.trim()`. -/
def trimChars (s : List Char) : List Char :=
  ((s.dropWhile Char.isWhitespace).reverse.dropWhile Char.isWhitespace).reverse

/-- Fuel-driven worker for `splitOnChars` (the fuel bounds the number
of characters still to be consumed, so it is structurally recursive and
computes by kernel reduction). -/
def splitOnCharsAux (sep : List Char) : Nat → List Char → List (List Char)
  | _, [] => [[]]
  | 0, s => [s]
  | fuel + 1, c :: cs =>
    if startsWithChars sep (c :: cs) then
      [] :: splitOnCharsAux sep fuel (List.drop sep.length (c :: cs))
    else
      match splitOnCharsAux sep fuel cs with
      | [] => [[c]]
      | h :: t => (c :: h) :: t

/-- JS `a.split(sep)` for a non-empty literal separator: leftmost,
non-overlapping occurrences separate the pieces. -/
def splitOnChars (sep s : List Char) : List (List Char) :=
  if sep = [] then [s] else splitOnCharsAux sep s.length s

/-- JS `a.split(/\r?\n/)`: a line separator is `\n` optionally preceded
by `\r`. -/
def splitLinesCr : List Char → List (List Char)
  | [] => [[]]
  | '\r' :: '\n' :: rest => [] :: splitLinesCr rest
  | '\n' :: rest => [] :: splitLinesCr rest
  | c :: rest =>
    match splitLinesCr rest with
    | [] => [[c]]
    | h :: t => (c :: h) :: t

/-- JS `list.join(sep)`. -/
def joinChars (sep : List Char) (xs : List (List Char)) : List Char :=
  List.intercalate sep xs

/-! ## DiffTruncator (`prepareDiffForAnalysis`, `prepareAiDiffPayload`) -/

/-- Result of `prepareDiffForAnalysis` in `extension.ts`. -/
structure PreparedDiff where
  text : List Char
  truncated : Bool
  analyzedLines : Nat
deriving DecidableEq, Repr

/-- The scanning loop of `prepareDiffForAnalysis`: consume up to `n`
lines (a line ends at `\n`; a final unterminated line counts as one
line), returning the consumed prefix, the number of lines consumed, and
whether any input remained unconsumed. -/
def takeLines : Nat → List Char → List Char × Nat × Bool
  | 0, s => ([], 0, !s.isEmpty)
  | n + 1, s =>
    if s.isEmpty then ([], 0, false)
    else
      match s.dropWhile (fun c => c != '\n') with
      | [] => (s, 1, false)
      | c :: rest =>
        let r := takeLines n rest
        (s.takeWhile (fun c => c != '\n') ++ c :: r.1, r.2.1 + 1, r.2.2)

/-- `prepareDiffForAnalysis(diffText, maxLines)` from `extension.ts`. -/
def prepareDiffForAnalysis (diffText : List Char) (maxLines : Int) : PreparedDiff :=
  if diffText = [] ∨ maxLines ≤ 0 then
    { text := [], truncated := decide (diffText ≠ []), analyzedLines := 0 }
  else
    let r := takeLines maxLines.toNat diffText
    { text := r.1, truncated := r.2.2, analyzedLines := r.2.1 }

/-- Total number of lines of a text, where a trailing `\n` terminates
the last line rather than opening a new one (the unit the scanning loop
of `prepareDiffForAnalysis` counts in). -/
def totalLines (s : List Char) : Nat :=
  match s.getLast? with
  | none => 0
  | some c => s.count '\n' + (if c = '\n' then 0 else 1)

/-- Result of `prepareAiDiffPayload` in `extension.ts`. -/
structure AiDiffPayload where
  text : List Char
  truncated : Bool
  analyzedLines : Nat
  truncatedByChars : Bool
deriving DecidableEq, Repr

/-- `prepareAiDiffPayload(diffText, maxLines, maxChars)` from
`extension.ts`: line truncation followed by a hard character cut. -/
def prepareAiDiffPayload (diffText : List Char) (maxLines maxChars : Int) : AiDiffPayload :=
  let prepared := prepareDiffForAnalysis diffText maxLines
  let cut : Bool := decide (0 < maxChars) && decide (maxChars < (prepared.text.length : Int))
  let text := if cut then prepared.text.take maxChars.toNat else prepared.text
  { text := text
    truncated := prepared.truncated || cut
    analyzedLines := prepared.analyzedLines
    truncatedByChars := cut }

/-! ### Lemmas about the scanning loop -/

lemma dropWhile_ne_newline_head (s : List Char) (c : Char) (rest : List Char)
    (h : s.dropWhile (fun c => c != '\n') = c :: rest) : c = '\n' := by
  induction s with
  | nil => simp at h
  | cons a as ih =>
    rw [List.dropWhile_cons] at h
    by_cases ha : a = '\n'
    · simp [ha] at h
      exact h.1.symm
    · simp [ha] at h
      exact ih h

lemma takeLines_main (n : Nat) (s : List Char) :
    ∃ rest, (takeLines n s).1 ++ rest = s ∧ ((takeLines n s).2.2 = true ↔ rest ≠ []) := by
  induction n generalizing s with
  | zero =>
    refine ⟨s, by simp [takeLines], ?_⟩
    cases s <;> simp [takeLines]
  | succ n ih =>
    cases s with
    | nil => exact ⟨[], by simp [takeLines], by simp [takeLines]⟩
    | cons a as =>
      rcases h : (a :: as).dropWhile (fun c => c != '\n') with _ | ⟨c, rest⟩
      · exact ⟨[], by simp [takeLines, h], by simp [takeLines, h]⟩
      · obtain ⟨r0, hr0, hiff⟩ := ih rest
        refine ⟨r0, ?_, ?_⟩
        · have hsplit : (a :: as).takeWhile (fun c => c != '\n') ++ c :: rest = a :: as := by
            rw [← h]; exact List.takeWhile_append_dropWhile _ _
          simp only [takeLines, List.isEmpty_cons, h]
          simpa [List.append_assoc, hr0] using hsplit
        · simpa [takeLines, h] using hiff

lemma takeLines_count_of_truncated (n : Nat) (s : List Char)
    (h : (takeLines n s).2.2 = true) : (takeLines n s).2.1 = n := by
  induction n generalizing s with
  | zero => simp [takeLines]
  | succ n ih =>
    cases s with
    | nil => simp [takeLines] at h
    | cons a as =>
      rcases hd : (a :: as).dropWhile (fun c => c != '\n') with _ | ⟨c, rest⟩
      · simp [takeLines, hd] at h
      · simp only [takeLines, List.isEmpty_cons, hd] at h ⊢
        simp only [Bool.false_eq_true, if_false] at h ⊢
        exact congrArg (· + 1) (ih rest h)

lemma totalLines_append_newline (a rest : List Char) (ha : '\n' ∉ a) :
    totalLines (a ++ '\n' :: rest) = 1 + totalLines rest := by
  have hcount : (a ++ '\n' :: rest).count '\n' = 1 + rest.count '\n' := by
    simp [List.count_append, List.count_cons, List.count_eq_zero.mpr ha]
    omega
  cases rest with
  | nil =>
    have hlast : (a ++ ['\n']).getLast? = some '\n' := List.getLast?_concat a
    simp [totalLines, hlast, hcount]
  | cons r rs =>
    have hne : r :: rs ≠ [] := by simp
    rcases hlr : (r :: rs).getLast? with _ | c
    · exact absurd hlr (by simp [List.getLast?_eq_getLast _ hne])
    · have hlast : (a ++ '\n' :: r :: rs).getLast? = some c := by
        rw [show a ++ '\n' :: r :: rs = (a ++ ['\n']) ++ r :: rs by simp,
          List.getLast?_append, hlr]
        rfl
      by_cases hc : c = '\n' <;> simp [totalLines, hlast, hlr, hcount, hc] <;> omega

lemma takeLines_count_of_exact (n : Nat) (s : List Char)
    (h : (takeLines n s).2.2 = false) : (takeLines n s).2.1 = totalLines s := by
  induction n generalizing s with
  | zero =>
    have : s = [] := by
      by_contra hs
      simp [takeLines, hs] at h
    simp [takeLines, this, totalLines]
  | succ n ih =>
    cases s with
    | nil => simp [takeLines, totalLines]
    | cons a as =>
      rcases hd : (a :: as).dropWhile (fun c => c != '\n') with _ | ⟨c, rest⟩
      · have hall : ∀ x ∈ a :: as, x ≠ '\n' := by
          intro x hx
          have := List.dropWhile_eq_nil_iff.mp hd x hx
          simpa using this
        have hne : a :: as ≠ [] := by simp
        have hcount : (a :: as).count '\n' = 0 := List.count_eq_zero.mpr (by
          intro hmem'
          exact hall '\n' hmem' rfl)
        have hlast : (a :: as).getLast? = some ((a :: as).getLast hne) :=
          List.getLast?_eq_getLast _ hne
        have hlnn : (a :: as).getLast hne ≠ '\n' := hall _ (List.getLast_mem hne)
        simp [takeLines, hd, totalLines, hlast, hcount, hlnn]
      · have hc : c = '\n' := dropWhile_ne_newline_head _ _ _ hd
        have hsplit : (a :: as).takeWhile (fun c => c != '\n') ++ c :: rest = a :: as := by
          rw [← hd]; exact List.takeWhile_append_dropWhile _ _
        have hnmem : '\n' ∉ (a :: as).takeWhile (fun c => c != '\n') := by
          intro hmem
          have := List.mem_takeWhile_imp hmem
          simp at this
        simp only [takeLines, List.isEmpty_cons, hd] at h ⊢
        simp only [Bool.false_eq_true, if_false] at h ⊢
        have := ih rest h
        rw [this, ← hsplit, hc]
        rw [totalLines_append_newline _ _ hnmem]
        omega

/-! ### C4, C5, C10 -/

/-- C4: for every diff text and line limit, the text returned by the
line truncation is a prefix of the input, and the `truncated` flag is
set exactly when the returned text is strictly shorter than the input. -/
theorem truncate_round_trip (diffText : List Char) (maxLines : Int) :
    (∃ rest, (prepareDiffForAnalysis diffText maxLines).text ++ rest = diffText)
    ∧ (prepareDiffForAnalysis diffText maxLines).truncated
      = decide ((prepareDiffForAnalysis diffText maxLines).text.length < diffText.length) := by
  by_cases h : diffText = [] ∨ maxLines ≤ 0
  · constructor
    · exact ⟨diffText, by simp [prepareDiffForAnalysis, h]⟩
    · simp only [prepareDiffForAnalysis, h, if_true]
      rcases eq_or_ne diffText [] with hd | hd <;> simp [hd, List.length_pos]
  · obtain ⟨rest, happ, hiff⟩ := takeLines_main maxLines.toNat diffText
    constructor
    · exact ⟨rest, by simpa [prepareDiffForAnalysis, h] using happ⟩
    · have hlen : (takeLines maxLines.toNat diffText).1.length + rest.length
          = diffText.length := by
        have h2 := congrArg List.length happ
        simpa using h2
      simp only [prepareDiffForAnalysis, h, if_false]
      rcases htr : (takeLines maxLines.toNat diffText).2.2 with _ | _
      · have hrest : rest = [] := by
          by_contra hr
          exact absurd (hiff.mpr hr) (by simp [htr])
        have hlen' : (takeLines maxLines.toNat diffText).1.length = diffText.length := by
          rw [hrest] at hlen
          simpa using hlen
        rw [hlen']
        simp
      · have hr : rest ≠ [] := hiff.mp htr
        have hp : 0 < rest.length := List.length_pos.mpr hr
        have hlt : (takeLines maxLines.toNat diffText).1.length < diffText.length := by omega
        simp [hlt]

/-- C5: when the cut is line-driven (`maxLines > 0` and the flag is
set), `analyzedLines` equals `maxLines`; when nothing was cut it equals
the true total line count; and `maxLines ≤ 0` yields empty text, zero
analyzed lines, and `truncated` exactly on non-empty input. -/
theorem analyzed_lines_invariant (diffText : List Char) (maxLines : Int) :
    (0 < maxLines → (prepareDiffForAnalysis diffText maxLines).truncated = true →
      ((prepareDiffForAnalysis diffText maxLines).analyzedLines : Int) = maxLines)
    ∧ ((prepareDiffForAnalysis diffText maxLines).truncated = false →
      (prepareDiffForAnalysis diffText maxLines).analyzedLines = totalLines diffText)
    ∧ (maxLines ≤ 0 →
      (prepareDiffForAnalysis diffText maxLines).text = []
      ∧ (prepareDiffForAnalysis diffText maxLines).analyzedLines = 0
      ∧ ((prepareDiffForAnalysis diffText maxLines).truncated = true ↔ diffText ≠ [])) := by
  refine ⟨?_, ?_, ?_⟩
  · intro hpos htr
    have h : ¬(diffText = [] ∨ maxLines ≤ 0) := by
      rintro (hd | hd)
      · simp [prepareDiffForAnalysis, hd] at htr
      · omega
    simp only [prepareDiffForAnalysis, h, if_false] at htr ⊢
    rw [takeLines_count_of_truncated _ _ htr]
    exact Int.toNat_of_nonneg (by omega)
  · intro htr
    by_cases h : diffText = [] ∨ maxLines ≤ 0
    · simp only [prepareDiffForAnalysis, h, if_true] at htr
      have hd : diffText = [] := by simpa using htr
      simp [prepareDiffForAnalysis, h, hd, totalLines]
    · simp only [prepareDiffForAnalysis, h, if_false] at htr ⊢
      exact takeLines_count_of_exact _ _ htr
  · intro hle
    have h : diffText = [] ∨ maxLines ≤ 0 := Or.inr hle
    refine ⟨by simp [prepareDiffForAnalysis, h], by simp [prepareDiffForAnalysis, h], ?_⟩
    simp [prepareDiffForAnalysis, h]

/-- C5 witness: a line-driven cut at `maxLines = 2` on a three-line
text reports `analyzedLines = 2`, and `maxLines = -1` on a non-empty
text yields the empty-text edge case. -/
theorem analyzed_lines_invariant_witness :
    ((prepareDiffForAnalysis (str "a\nb\nc") 2).analyzedLines : Int) = 2
    ∧ (prepareDiffForAnalysis (str "a") (-1)).text = [] := by
  constructor
  · exact (analyzed_lines_invariant (str "a\nb\nc") 2).1 (by decide) (by decide)
  · exact ((analyzed_lines_invariant (str "a") (-1)).2.2 (by decide)).1

/-- C10: the character-cut stage changes only the text and the
truncation flags — `analyzedLines` is carried over from the line stage
unchanged (and can therefore exceed the lines present in the returned
text), `truncatedByChars` is set exactly when `maxChars > 0` and the
line-truncated text is longer, and `truncated` is the disjunction of
the two stages' flags. -/
theorem ai_payload_frame (diffText : List Char) (maxLines maxChars : Int) :
    (prepareAiDiffPayload diffText maxLines maxChars).analyzedLines
      = (prepareDiffForAnalysis diffText maxLines).analyzedLines
    ∧ (prepareAiDiffPayload diffText maxLines maxChars).truncatedByChars
      = (decide (0 < maxChars)
          && decide (maxChars < ((prepareDiffForAnalysis diffText maxLines).text.length : Int)))
    ∧ (prepareAiDiffPayload diffText maxLines maxChars).truncated
      = ((prepareDiffForAnalysis diffText maxLines).truncated
          || (prepareAiDiffPayload diffText maxLines maxChars).truncatedByChars)
    ∧ (prepareAiDiffPayload (str "a\nb\nc\n") 3 1).analyzedLines = 3
    ∧ totalLines (prepareAiDiffPayload (str "a\nb\nc\n") 3 1).text = 1 := by
  refine ⟨rfl, rfl, rfl, by decide, by decide⟩

/-! ## Data model and ChangeSetMerger (`mergeChanges`) -/

/-- The `FileStatus` union type of `template.ts`. -/
inductive FileStatus where
  | Added
  | Modified
  | Deleted
  | Renamed
deriving DecidableEq, Repr

/-- A `FileChange` record of `template.ts`. -/
structure FileChange where
  status : FileStatus
  path : List Char
deriving DecidableEq, Repr

/-- A `ParsedFileChange` of `extension.ts`: a `FileChange` plus its
merge key. -/
structure ParsedFileChange where
  status : FileStatus
  path : List Char
  key : List Char
deriving DecidableEq, Repr

instance : Inhabited FileStatus := ⟨FileStatus.Modified⟩

instance : Inhabited FileChange := ⟨⟨FileStatus.Modified, []⟩⟩

instance : Inhabited ParsedFileChange := ⟨⟨FileStatus.Modified, [], []⟩⟩

/-- Dropping the merge key (what `mergeChanges` stores in its map). -/
def toFileChange (c : ParsedFileChange) : FileChange :=
  { status := c.status, path := c.path }

/-- One step of `mergeChanges`: `if (!merged.has(change.key)) merged.set(...)`.
A JS `Map` preserves insertion order, modelled as an association list. -/
def insertChange (acc : List (List Char × FileChange)) (change : ParsedFileChange) :
    List (List Char × FileChange) :=
  if (acc.map Prod.fst).contains change.key then acc
  else acc ++ [(change.key, toFileChange change)]

/-- The insertion-ordered map built by `mergeChanges(primary, secondary)`. -/
def mergeEntries (primary secondary : List ParsedFileChange) :
    List (List Char × FileChange) :=
  (primary ++ secondary).foldl insertChange []

/-- `mergeChanges(primary, secondary)` from `extension.ts`
(`Array.from(merged.values())`). -/
def mergeChanges (primary secondary : List ParsedFileChange) : List FileChange :=
  (mergeEntries primary secondary).map Prod.snd

/-- Keep-first deduplication of a key sequence (the "first-seen order"
of the spec). -/
def dedupFirstSeen (keys : List (List Char)) : List (List Char) :=
  keys.foldl (fun acc k => if acc.contains k then acc else acc ++ [k]) []

/-- Lookup in the insertion-ordered map (first binding wins). -/
def lookupKey (k : List Char) : List (List Char × FileChange) → Option FileChange
  | [] => none
  | (a, v) :: rest => if k == a then some v else lookupKey k rest

lemma lookupKey_append_of_some (acc rest : List (List Char × FileChange)) (k : List Char)
    (v : FileChange) (h : lookupKey k acc = some v) :
    lookupKey k (acc ++ rest) = some v := by
  induction acc with
  | nil => simp [lookupKey] at h
  | cons p ps ih =>
    rcases p with ⟨a, b⟩
    cases hk : k == a
    · simp only [lookupKey, hk] at h
      simp only [List.cons_append, lookupKey, hk]
      simp only [Bool.false_eq_true, if_false] at h ⊢
      exact ih h
    · simp only [lookupKey, hk] at h
      simp only [List.cons_append, lookupKey, hk]
      simpa using h

lemma lookupKey_append_pair_of_none (acc : List (List Char × FileChange)) (k key : List Char)
    (v : FileChange) (h : lookupKey k acc = none) :
    lookupKey k (acc ++ [(key, v)]) = if k == key then some v else none := by
  induction acc with
  | nil => simp [lookupKey]
  | cons p ps ih =>
    rcases p with ⟨a, b⟩
    cases hk : k == a
    · simp only [lookupKey, hk] at h
      simp only [List.cons_append, lookupKey, hk]
      simp only [Bool.false_eq_true, if_false] at h ⊢
      exact ih h
    · simp only [lookupKey, hk] at h
      simp at h

lemma contains_eq_isSome_lookupKey (acc : List (List Char × FileChange)) (k : List Char) :
    (acc.map Prod.fst).contains k = (lookupKey k acc).isSome := by
  induction acc with
  | nil => simp [lookupKey]
  | cons p ps ih =>
    rcases p with ⟨a, b⟩
    cases hk : k == a
    · simp only [List.map_cons, List.contains_cons, lookupKey, hk, Bool.false_or, ih]
      simp
    · simp only [List.map_cons, List.contains_cons, lookupKey, hk, Bool.true_or]
      simp

lemma lookup_foldl_of_some (l : List ParsedFileChange) (acc : List (List Char × FileChange))
    (k : List Char) (v : FileChange) (h : lookupKey k acc = some v) :
    lookupKey k (l.foldl insertChange acc) = some v := by
  induction l generalizing acc with
  | nil => simpa using h
  | cons c cs ih =>
    simp only [List.foldl_cons]
    apply ih
    unfold insertChange
    split
    · exact h
    · exact lookupKey_append_of_some _ _ _ _ h

lemma lookup_foldl_of_none (l : List ParsedFileChange) (acc : List (List Char × FileChange))
    (k : List Char) (h : lookupKey k acc = none) :
    lookupKey k (l.foldl insertChange acc)
      = (l.find? (fun c => c.key == k)).map toFileChange := by
  induction l generalizing acc with
  | nil => simpa using h
  | cons c cs ih =>
    simp only [List.foldl_cons]
    by_cases hcont : ((acc.map Prod.fst).contains c.key) = true
    · have hinsert : insertChange acc c = acc := by
        unfold insertChange
        rw [hcont]
        rfl
      rw [hinsert]
      have hne : (c.key == k) = false := by
        by_contra hb
        have hb' : (c.key == k) = true := by simpa using hb
        have hkk : c.key = k := eq_of_beq hb'
        rw [contains_eq_isSome_lookupKey, hkk, h] at hcont
        simp at hcont
      rw [List.find?_cons_of_neg _ (by simp [hne])]
      exact ih acc h
    · have hcont' : ((acc.map Prod.fst).contains c.key) = false := by simpa using hcont
      have hinsert : insertChange acc c = acc ++ [(c.key, toFileChange c)] := by
        unfold insertChange
        rw [hcont']
        rfl
      rw [hinsert]
      by_cases hck : (c.key == k) = true
      · have hkk : c.key = k := eq_of_beq hck
        have hlook : lookupKey k (acc ++ [(c.key, toFileChange c)])
            = some (toFileChange c) := by
          rw [lookupKey_append_pair_of_none _ _ _ _ h, hkk]
          simp
        rw [lookup_foldl_of_some cs _ _ _ hlook, List.find?_cons_of_pos _ (by simp [hck])]
        rfl
      · have hck' : (c.key == k) = false := by simpa using hck
        have hsymm : (k == c.key) = false := by
          by_contra hb
          have hb' : (k == c.key) = true := by simpa using hb
          rw [eq_of_beq hb'] at hck'
          simp at hck'
        have hlook : lookupKey k (acc ++ [(c.key, toFileChange c)]) = none := by
          rw [lookupKey_append_pair_of_none _ _ _ _ h, hsymm]
          rfl
        rw [ih _ hlook, List.find?_cons_of_neg _ (by simp [hck'])]

lemma nodup_foldl_keys (l : List ParsedFileChange) (acc : List (List Char × FileChange))
    (h : (acc.map Prod.fst).Nodup) :
    ((l.foldl insertChange acc).map Prod.fst).Nodup := by
  induction l generalizing acc with
  | nil => simpa using h
  | cons c cs ih =>
    simp only [List.foldl_cons]
    apply ih
    unfold insertChange
    split
    · exact h
    · rename_i hcont
      have hnmem : c.key ∉ acc.map Prod.fst := by
        intro hmem
        exact hcont (by simpa [List.elem_eq_mem] using hmem)
      rw [List.map_append]
      refine List.Nodup.append h (List.nodup_singleton _) ?_
      intro x hx hx'
      simp only [List.map_cons, List.map_nil, List.mem_singleton] at hx'
      subst hx'
      exact hnmem hx

lemma keys_foldl (l : List ParsedFileChange) (acc : List (List Char × FileChange)) :
    (l.foldl insertChange acc).map Prod.fst
      = l.foldl (fun ks c => if ks.contains c.key then ks else ks ++ [c.key])
          (acc.map Prod.fst) := by
  induction l generalizing acc with
  | nil => simp
  | cons c cs ih =>
    simp only [List.foldl_cons]
    rw [ih]
    congr 1
    unfold insertChange
    split <;> rename_i hc
    · simp [hc]
    · have hc' : ((acc.map Prod.fst).contains c.key) = false := by simpa using hc
      simp [hc']

/-- C3: merging walks `primary` then `secondary` and the first
occurrence of a merge key wins — looking up any key in the merged map
returns the first record of `primary ++ secondary` carrying that key —
the resulting keys are unique, they appear in first-seen order, and on
the same-key example the `primary` record survives. -/
theorem merge_first_occurrence_wins :
    (∀ (primary secondary : List ParsedFileChange) (k : List Char),
      lookupKey k (mergeEntries primary secondary)
        = ((primary ++ secondary).find? (fun c => c.key == k)).map toFileChange)
    ∧ (∀ (primary secondary : List ParsedFileChange),
      ((mergeEntries primary secondary).map Prod.fst).Nodup)
    ∧ (∀ (primary secondary : List ParsedFileChange),
      (mergeEntries primary secondary).map Prod.fst
        = dedupFirstSeen ((primary ++ secondary).map ParsedFileChange.key))
    ∧ mergeChanges [⟨.Added, str "f", str "f"⟩] [⟨.Modified, str "f", str "f"⟩]
        = [⟨.Added, str "f"⟩] := by
  refine ⟨?_, ?_, ?_, by decide⟩
  · intro p s k
    exact lookup_foldl_of_none _ _ _ rfl
  · intro p s
    exact nodup_foldl_keys _ _ (by simp)
  · intro p s
    rw [mergeEntries, keys_foldl, dedupFirstSeen, List.foldl_map]
    rfl

/-! ## ChangeClassifier: path normalization -/

/-- `extractCurrentPath` from `extension.ts`: the text after the last
`->` (for renames, the new path), trimmed. -/
def extractCurrentPath (path : List Char) : List Char :=
  trimChars ((splitOnChars (str "->") path).getLastD path)

/-- `normalizeGroupingPath` from `extension.ts`: trim and strip one
leading `./` or `/`. -/
def normalizeGroupingPath (path : List Char) : List Char :=
  let trimmed := trimChars (extractCurrentPath path)
  if startsWithChars (str "./") trimmed then trimmed.drop 2
  else if startsWithChars (str "/") trimmed then trimmed.drop 1
  else trimmed

/-! ## ChangeClassifier: testing lines (`isTestFile`, `buildTestingLines`) -/

/-- The directory-segment names that mark test files. -/
def testDirSegments : List (List Char) :=
  [str "test", str "tests", str "__tests__", str "spec"]

/-- The filename regex `\.(spec|test)\.[^.]+$` of `isTestFile`: at least
three dot-separated segments, with `spec` or `test` second-to-last and a
non-empty final extension. -/
def matchesTestFilename (filename : List Char) : Bool :=
  let segs := splitOnChars (str ".") filename
  decide (3 ≤ segs.length)
    && (segs.getD (segs.length - 2) [] == str "spec"
        || segs.getD (segs.length - 2) [] == str "test")
    && !(segs.getLastD []).isEmpty

/-- `isTestFile` from `extension.ts`. -/
def isTestFile (change : FileChange) : Bool :=
  let normalized := toLowerChars (normalizeGroupingPath change.path)
  if normalized.isEmpty then false
  else
    let parts := (splitOnChars (str "/") normalized).filter (fun s => !s.isEmpty)
    let filename := parts.getLastD []
    parts.any (fun part => testDirSegments.contains part) || matchesTestFilename filename

/-- `buildTestingLines` from `extension.ts`. -/
def buildTestingLines (files : List FileChange) : List (List Char) :=
  if files.any isTestFile then [str "- [x] Unit tests"]
  else
    [str "- [ ] Unit tests", str "- [ ] Manual testing",
      str "- Please describe manual testing."]

/-! ## ChangeClassifier: risk assessment (`buildRiskAssessment`) -/

/-- The database rule of `buildRiskAssessment`. -/
def fileMatchesDatabase (path : List Char) : Bool :=
  let n := toLowerChars (normalizeGroupingPath path)
  containsChars (str "migrations/") n || containsChars (str "migration/") n
    || containsChars (str "prisma") n || containsChars (str "flyway") n
    || endsWithChars (str ".sql") n

/-- The auth/security rule of `buildRiskAssessment`. -/
def fileMatchesAuthSecurity (path : List Char) : Bool :=
  let n := toLowerChars (normalizeGroupingPath path)
  containsChars (str "auth") n || containsChars (str "jwt") n
    || containsChars (str "oauth") n || containsChars (str "permission") n

/-- The infra rule of `buildRiskAssessment`. -/
def fileMatchesInfra (path : List Char) : Bool :=
  let n := toLowerChars (normalizeGroupingPath path)
  containsChars (str "terraform") n || containsChars (str "helm") n
    || containsChars (str "k8s") n || containsChars (str ".github/workflows") n

/-- The config rule of `buildRiskAssessment`. -/
def fileMatchesConfig (path : List Char) : Bool :=
  let n := toLowerChars (normalizeGroupingPath path)
  containsChars (str "/config/") n || startsWithChars (str "config/") n
    || containsChars (str ".env") n || endsWithChars (str ".yml") n
    || endsWithChars (str ".yaml") n

/-- The three risk levels. -/
inductive RiskLevel where
  | Low
  | Medium
  | High
deriving DecidableEq, Repr

/-- The result of `buildRiskAssessment`. -/
structure RiskAssessment where
  level : RiskLevel
  areas : List (List Char)
deriving DecidableEq, Repr

/-- The mutable state of the file loop in `buildRiskAssessment`
(`areas` is a JS `Set`, insertion-ordered and duplicate-free). -/
structure RiskState where
  areas : List (List Char)
  hasHigh : Bool
  hasMedium : Bool

/-- `Set.add`: append if absent. -/
def addArea (areas : List (List Char)) (a : List Char) : List (List Char) :=
  if areas.contains a then areas else areas ++ [a]

/-- The database update of the file loop of `buildRiskAssessment`. -/
def riskStepDb (st : RiskState) (file : FileChange) : RiskState :=
  if fileMatchesDatabase file.path then
    { st with areas := addArea st.areas (str "database"), hasHigh := true }
  else st

/-- The auth/security update of the file loop of `buildRiskAssessment`. -/
def riskStepAuth (st : RiskState) (file : FileChange) : RiskState :=
  if fileMatchesAuthSecurity file.path then
    { st with areas := addArea st.areas (str "auth/security"), hasHigh := true }
  else st

/-- The infra update of the file loop of `buildRiskAssessment`. -/
def riskStepInfra (st : RiskState) (file : FileChange) : RiskState :=
  if fileMatchesInfra file.path then
    { st with areas := addArea st.areas (str "infra"), hasHigh := true }
  else st

/-- The config update of the file loop of `buildRiskAssessment`. -/
def riskStepConfig (st : RiskState) (file : FileChange) : RiskState :=
  if fileMatchesConfig file.path then
    { st with areas := addArea st.areas (str "config"), hasMedium := true }
  else st

/-- One iteration of the file loop of `buildRiskAssessment`: the four
category updates applied in the source's order. -/
def riskStep (st : RiskState) (file : FileChange) : RiskState :=
  riskStepConfig (riskStepInfra (riskStepAuth (riskStepDb st file) file) file) file

/-- The fixed priority order of risk areas. -/
def riskOrder : List (List Char) :=
  [str "database", str "auth/security", str "infra", str "config"]

/-- `buildRiskAssessment` from `extension.ts`. -/
def buildRiskAssessment (files : List FileChange) : RiskAssessment :=
  let st := files.foldl riskStep ⟨[], false, false⟩
  let level :=
    if st.hasHigh then RiskLevel.High
    else if st.hasMedium then RiskLevel.Medium
    else RiskLevel.Low
  { level := level, areas := riskOrder.filter (fun a => st.areas.contains a) }

/-! ## DiffStatCounter (`summarizeDiff`) -/

/-- The result of `summarizeDiff`. -/
structure DiffSummary where
  added : Nat
  removed : Nat
deriving DecidableEq, Repr

/-- The structural-header test of `summarizeDiff`. -/
def isStructuralDiffLine (l : List Char) : Bool :=
  startsWithChars (str "diff ") l || startsWithChars (str "index ") l
    || startsWithChars (str "--- ") l || startsWithChars (str "+++ ") l
    || startsWithChars (str "@@") l

/-- The per-line body of the `forEach` loop of `summarizeDiff`. -/
def summarizeStep (acc : DiffSummary) (line : List Char) : DiffSummary :=
  if isStructuralDiffLine line then acc
  else if startsWithChars (str "+") line then ⟨acc.added + 1, acc.removed⟩
  else if startsWithChars (str "-") line then ⟨acc.added, acc.removed + 1⟩
  else acc

/-- `summarizeDiff` from `extension.ts`. -/
def summarizeDiff (diffText : List Char) : DiffSummary :=
  if diffText.isEmpty then ⟨0, 0⟩
  else (splitLinesCr diffText).foldl summarizeStep ⟨0, 0⟩

/-! ## ChangeClassifier: change bullets (`buildChangeBullets`) -/

/-- `formatList` from `extension.ts`. -/
def natChars (n : Nat) : List Char := (toString n).data

/-- `formatList(items, maxItems)` from `extension.ts`. -/
def formatList (items : List (List Char)) (maxItems : Nat) : List Char :=
  if items.length ≤ maxItems then joinChars (str ", ") items
  else
    joinChars (str ", ") (items.take maxItems) ++ str ", and "
      ++ natChars (items.length - maxItems) ++ str " more"

/-- The `pushBullet` closure of `buildChangeBullets` (skip empty text,
cap the list at 6). -/
def pushBullet (bullets : List (List Char)) (text : List Char) : List (List Char) :=
  if text.isEmpty then bullets
  else if bullets.length < 6 then bullets ++ [text] else bullets

/-- The scripts detector of `buildChangeBullets`. -/
def fileTouchesScripts (path : List Char) : Bool :=
  let n := toLowerChars (normalizeGroupingPath path)
  startsWithChars (str "scripts/") n || containsChars (str "/scripts/") n

/-- File extension as in `buildChangeBullets` (text after the last dot;
empty when the path has no dot). -/
def jsExtension (n : List Char) : List Char :=
  let segs := splitOnChars (str ".") n
  if segs.length = 1 then [] else segs.getLastD []

/-- The docs detector of `buildChangeBullets`. -/
def fileTouchesDocs (path : List Char) : Bool :=
  let n := toLowerChars (normalizeGroupingPath path)
  containsChars (str "/docs/") n
    || (jsExtension n == str "md" && !(containsChars (str "readme") n))

/-- The assets detector of `buildChangeBullets`. -/
def fileTouchesAssets (path : List Char) : Bool :=
  let n := toLowerChars (normalizeGroupingPath path)
  containsChars (str "/assets/") n || startsWithChars (str "assets/") n
    || containsChars (str "/public/") n

/-- UI file extensions of `buildChangeBullets`. -/
def uiExtensions : List (List Char) :=
  [str "html", str "css", str "scss", str "less", str "sass", str "tsx",
    str "jsx", str "vue", str "svelte"]

/-- The UI detector of `buildChangeBullets`. -/
def fileTouchesUi (path : List Char) : Bool :=
  let n := toLowerChars (normalizeGroupingPath path)
  uiExtensions.contains (jsExtension n) || containsChars (str "/ui/") n
    || containsChars (str "/components/") n || containsChars (str "/views/") n
    || containsChars (str "/pages/") n || containsChars (str "/styles/") n

/-- The API/backend detector of `buildChangeBullets`. -/
def fileTouchesApi (path : List Char) : Bool :=
  let n := toLowerChars (normalizeGroupingPath path)
  containsChars (str "/api/") n || containsChars (str "/server/") n
    || containsChars (str "/backend/") n || containsChars (str "/controllers/") n
    || containsChars (str "/routes/") n || containsChars (str "/services/") n

/-- The dependency-file detector of `buildChangeBullets`. -/
def fileTouchesDependencies (path : List Char) : Bool :=
  let n := toLowerChars (normalizeGroupingPath path)
  endsWithChars (str "package.json") n || endsWithChars (str "package-lock.json") n
    || endsWithChars (str "yarn.lock") n || endsWithChars (str "pnpm-lock.yaml") n
    || endsWithChars (str "bun.lockb") n

/-- The config detector of `buildChangeBullets` (the risk config rule
plus `config.json`). -/
def fileTouchesConfigSignal (path : List Char) : Bool :=
  let n := toLowerChars (normalizeGroupingPath path)
  containsChars (str "/config/") n || startsWithChars (str "config/") n
    || containsChars (str ".env") n || endsWithChars (str ".yml") n
    || endsWithChars (str ".yaml") n || endsWithChars (str "config.json") n

/-- The infra detector of `buildChangeBullets`. -/
def fileTouchesInfraSignal (path : List Char) : Bool :=
  let n := toLowerChars (normalizeGroupingPath path)
  containsChars (str ".github/workflows") n || containsChars (str "/ci/") n
    || containsChars (str "dockerfile") n || containsChars (str "/k8s/") n
    || containsChars (str "/helm/") n || containsChars (str "/terraform/") n

/-- The `signals` list of `buildChangeBullets`, in its fixed push
order. -/
def changeSignals (files : List FileChange) : List (List Char) :=
  (if files.any (fun f => fileTouchesDependencies f.path) then [str "dependencies"] else [])
    ++ (if files.any (fun f => fileTouchesConfigSignal f.path) then [str "config"] else [])
    ++ (if files.any (fun f => fileMatchesDatabase f.path) then [str "database"] else [])
    ++ (if files.any (fun f => fileMatchesAuthSecurity f.path) then [str "auth/security"] else [])
    ++ (if files.any (fun f => fileTouchesInfraSignal f.path) then [str "infra"] else [])

/-- The `focusAreas` list of `buildChangeBullets`, in its fixed push
order. -/
def changeFocusAreas (files : List FileChange) : List (List Char) :=
  (if 0 < files.countP (fun f => fileTouchesUi f.path) then [str "UI"] else [])
    ++ (if 0 < files.countP (fun f => fileTouchesApi f.path) then [str "API/backend"] else [])
    ++ (if 0 < files.countP (fun f => fileTouchesScripts f.path) then [str "scripts"] else [])
    ++ (if 0 < files.countP (fun f => fileTouchesDocs f.path) then [str "docs"] else [])
    ++ (if 0 < files.countP (fun f => fileTouchesAssets f.path) then [str "assets"] else [])
    ++ (if 0 < files.countP isTestFile then [str "tests"] else [])

/-- The `Sensitive areas: …` bullet text. -/
def sensitiveBullet (signals : List (List Char)) : List Char :=
  str "Sensitive areas: " ++ joinChars (str ", ") signals ++ str "."

/-- The `Touches: …` bullet text. -/
def touchesBullet (focusAreas : List (List Char)) : List Char :=
  str "Touches: " ++ formatList focusAreas 6 ++ str "."

/-- `buildChangeBullets` from `extension.ts`. -/
def buildChangeBullets (files : List FileChange) : List (List Char) :=
  if files.isEmpty then []
  else
    let signals := changeSignals files
    let focusAreas := changeFocusAreas files
    let bullets : List (List Char) := []
    let bullets :=
      if 0 < signals.length then pushBullet bullets (sensitiveBullet signals) else bullets
    let bullets :=
      if 0 < focusAreas.length then pushBullet bullets (touchesBullet focusAreas) else bullets
    let bullets :=
      if 0 < files.countP (fun f => fileTouchesUi f.path)
          ∧ 0 < files.countP (fun f => fileTouchesApi f.path) then
        pushBullet bullets (str "Cross-layer change: UI and API/backend updated.")
      else bullets
    let bullets :=
      if files.any (fun f => fileTouchesDependencies f.path) then
        pushBullet bullets (str "Dependencies updated.")
      else bullets
    bullets

/-! ### Lemmas about the risk fold -/

lemma mem_addArea (areas : List (List Char)) (a b : List Char) :
    b ∈ addArea areas a ↔ (b ∈ areas ∨ b = a) := by
  unfold addArea
  split
  · rename_i hc
    constructor
    · exact Or.inl
    · rintro (h | h)
      · exact h
      · subst h
        simpa [List.contains, List.elem_eq_mem] using hc
  · simp [List.mem_append]

lemma riskStepDb_spec (st : RiskState) (f : FileChange) (b : List Char) :
    (riskStepDb st f).hasHigh = (st.hasHigh || fileMatchesDatabase f.path)
    ∧ (riskStepDb st f).hasMedium = st.hasMedium
    ∧ (b ∈ (riskStepDb st f).areas
        ↔ (b ∈ st.areas ∨ (fileMatchesDatabase f.path = true ∧ b = str "database"))) := by
  unfold riskStepDb
  split <;> rename_i h
  · simp [h, mem_addArea]
  · have h' : fileMatchesDatabase f.path = false := by simpa using h
    simp [h']

lemma riskStepAuth_spec (st : RiskState) (f : FileChange) (b : List Char) :
    (riskStepAuth st f).hasHigh = (st.hasHigh || fileMatchesAuthSecurity f.path)
    ∧ (riskStepAuth st f).hasMedium = st.hasMedium
    ∧ (b ∈ (riskStepAuth st f).areas
        ↔ (b ∈ st.areas ∨ (fileMatchesAuthSecurity f.path = true ∧ b = str "auth/security"))) := by
  unfold riskStepAuth
  split <;> rename_i h
  · simp [h, mem_addArea]
  · have h' : fileMatchesAuthSecurity f.path = false := by simpa using h
    simp [h']

lemma riskStepInfra_spec (st : RiskState) (f : FileChange) (b : List Char) :
    (riskStepInfra st f).hasHigh = (st.hasHigh || fileMatchesInfra f.path)
    ∧ (riskStepInfra st f).hasMedium = st.hasMedium
    ∧ (b ∈ (riskStepInfra st f).areas
        ↔ (b ∈ st.areas ∨ (fileMatchesInfra f.path = true ∧ b = str "infra"))) := by
  unfold riskStepInfra
  split <;> rename_i h
  · simp [h, mem_addArea]
  · have h' : fileMatchesInfra f.path = false := by simpa using h
    simp [h']

lemma riskStepConfig_spec (st : RiskState) (f : FileChange) (b : List Char) :
    (riskStepConfig st f).hasHigh = st.hasHigh
    ∧ (riskStepConfig st f).hasMedium = (st.hasMedium || fileMatchesConfig f.path)
    ∧ (b ∈ (riskStepConfig st f).areas
        ↔ (b ∈ st.areas ∨ (fileMatchesConfig f.path = true ∧ b = str "config"))) := by
  unfold riskStepConfig
  split <;> rename_i h
  · simp [h, mem_addArea]
  · have h' : fileMatchesConfig f.path = false := by simpa using h
    simp [h']

lemma riskStep_hasHigh (st : RiskState) (f : FileChange) :
    (riskStep st f).hasHigh
      = (st.hasHigh || (fileMatchesDatabase f.path || fileMatchesAuthSecurity f.path
          || fileMatchesInfra f.path)) := by
  unfold riskStep
  rw [(riskStepConfig_spec _ _ []).1, (riskStepInfra_spec _ _ []).1,
    (riskStepAuth_spec _ _ []).1, (riskStepDb_spec _ _ []).1]
  simp [Bool.or_assoc]

lemma riskStep_hasMedium (st : RiskState) (f : FileChange) :
    (riskStep st f).hasMedium = (st.hasMedium || fileMatchesConfig f.path) := by
  unfold riskStep
  rw [(riskStepConfig_spec _ _ []).2.1, (riskStepInfra_spec _ _ []).2.1,
    (riskStepAuth_spec _ _ []).2.1, (riskStepDb_spec _ _ []).2.1]

lemma riskStep_mem (st : RiskState) (f : FileChange) (b : List Char) :
    b ∈ (riskStep st f).areas
      ↔ (b ∈ st.areas
        ∨ (fileMatchesDatabase f.path = true ∧ b = str "database")
        ∨ (fileMatchesAuthSecurity f.path = true ∧ b = str "auth/security")
        ∨ (fileMatchesInfra f.path = true ∧ b = str "infra")
        ∨ (fileMatchesConfig f.path = true ∧ b = str "config")) := by
  unfold riskStep
  rw [(riskStepConfig_spec _ _ b).2.2, (riskStepInfra_spec _ _ b).2.2,
    (riskStepAuth_spec _ _ b).2.2, (riskStepDb_spec _ _ b).2.2]
  simp [or_assoc]

lemma foldl_riskStep_hasHigh (files : List FileChange) (st : RiskState) :
    (files.foldl riskStep st).hasHigh
      = (st.hasHigh || files.any (fun f => fileMatchesDatabase f.path
          || fileMatchesAuthSecurity f.path || fileMatchesInfra f.path)) := by
  induction files generalizing st with
  | nil => simp
  | cons f fs ih =>
    simp only [List.foldl_cons, List.any_cons]
    rw [ih, riskStep_hasHigh]
    simp [Bool.or_assoc]

lemma foldl_riskStep_hasMedium (files : List FileChange) (st : RiskState) :
    (files.foldl riskStep st).hasMedium
      = (st.hasMedium || files.any (fun f => fileMatchesConfig f.path)) := by
  induction files generalizing st with
  | nil => simp
  | cons f fs ih =>
    simp only [List.foldl_cons, List.any_cons]
    rw [ih, riskStep_hasMedium]
    simp [Bool.or_assoc]

lemma foldl_riskStep_mem (files : List FileChange) (st : RiskState) (b : List Char) :
    b ∈ (files.foldl riskStep st).areas
      ↔ (b ∈ st.areas
        ∨ (files.any (fun f => fileMatchesDatabase f.path) = true ∧ b = str "database")
        ∨ (files.any (fun f => fileMatchesAuthSecurity f.path) = true ∧ b = str "auth/security")
        ∨ (files.any (fun f => fileMatchesInfra f.path) = true ∧ b = str "infra")
        ∨ (files.any (fun f => fileMatchesConfig f.path) = true ∧ b = str "config")) := by
  induction files generalizing st with
  | nil => simp
  | cons f fs ih =>
    simp only [List.foldl_cons, List.any_cons, Bool.or_eq_true]
    rw [ih, riskStep_mem]
    simp only [or_and_right]
    simp [or_assoc, or_comm, or_left_comm]

lemma foldl_contains_database (files : List FileChange) :
    ((files.foldl riskStep ⟨[], false, false⟩).areas.contains (str "database"))
      = files.any (fun f => fileMatchesDatabase f.path) := by
  cases hany : files.any (fun f => fileMatchesDatabase f.path)
  · have hmem : str "database" ∉ (files.foldl riskStep ⟨[], false, false⟩).areas := by
      rw [foldl_riskStep_mem]
      simp [hany, (by decide : ¬(str "database" = str "auth/security")),
        (by decide : ¬(str "database" = str "infra")),
        (by decide : ¬(str "database" = str "config"))]
    simp [List.contains, List.elem_eq_mem, hmem]
  · have hmem : str "database" ∈ (files.foldl riskStep ⟨[], false, false⟩).areas := by
      rw [foldl_riskStep_mem]
      simp [hany]
    simp [List.contains, List.elem_eq_mem, hmem]

lemma foldl_contains_auth (files : List FileChange) :
    ((files.foldl riskStep ⟨[], false, false⟩).areas.contains (str "auth/security"))
      = files.any (fun f => fileMatchesAuthSecurity f.path) := by
  cases hany : files.any (fun f => fileMatchesAuthSecurity f.path)
  · have hmem : str "auth/security" ∉ (files.foldl riskStep ⟨[], false, false⟩).areas := by
      rw [foldl_riskStep_mem]
      simp [hany, (by decide : ¬(str "auth/security" = str "database")),
        (by decide : ¬(str "auth/security" = str "infra")),
        (by decide : ¬(str "auth/security" = str "config"))]
    simp [List.contains, List.elem_eq_mem, hmem]
  · have hmem : str "auth/security" ∈ (files.foldl riskStep ⟨[], false, false⟩).areas := by
      rw [foldl_riskStep_mem]
      simp [hany]
    simp [List.contains, List.elem_eq_mem, hmem]

lemma foldl_contains_infra (files : List FileChange) :
    ((files.foldl riskStep ⟨[], false, false⟩).areas.contains (str "infra"))
      = files.any (fun f => fileMatchesInfra f.path) := by
  cases hany : files.any (fun f => fileMatchesInfra f.path)
  · have hmem : str "infra" ∉ (files.foldl riskStep ⟨[], false, false⟩).areas := by
      rw [foldl_riskStep_mem]
      simp [hany, (by decide : ¬(str "infra" = str "database")),
        (by decide : ¬(str "infra" = str "auth/security")),
        (by decide : ¬(str "infra" = str "config"))]
    simp [List.contains, List.elem_eq_mem, hmem]
  · have hmem : str "infra" ∈ (files.foldl riskStep ⟨[], false, false⟩).areas := by
      rw [foldl_riskStep_mem]
      simp [hany]
    simp [List.contains, List.elem_eq_mem, hmem]

lemma foldl_contains_config (files : List FileChange) :
    ((files.foldl riskStep ⟨[], false, false⟩).areas.contains (str "config"))
      = files.any (fun f => fileMatchesConfig f.path) := by
  cases hany : files.any (fun f => fileMatchesConfig f.path)
  · have hmem : str "config" ∉ (files.foldl riskStep ⟨[], false, false⟩).areas := by
      rw [foldl_riskStep_mem]
      simp [hany, (by decide : ¬(str "config" = str "database")),
        (by decide : ¬(str "config" = str "auth/security")),
        (by decide : ¬(str "config" = str "infra"))]
    simp [List.contains, List.elem_eq_mem, hmem]
  · have hmem : str "config" ∈ (files.foldl riskStep ⟨[], false, false⟩).areas := by
      rw [foldl_riskStep_mem]
      simp [hany]
    simp [List.contains, List.elem_eq_mem, hmem]

/-- C6: the risk level is High exactly when some file matches a
database, auth/security, or infra rule, else Medium exactly when some
file matches the config rule, else Low; the areas list is the matched
categories in the fixed priority order database, auth/security, infra,
config; and the three example change sets classify as specified. -/
theorem risk_levels_and_areas :
    (∀ files : List FileChange,
      (buildRiskAssessment files).level
        = (if files.any (fun f => fileMatchesDatabase f.path || fileMatchesAuthSecurity f.path
              || fileMatchesInfra f.path) then RiskLevel.High
           else if files.any (fun f => fileMatchesConfig f.path) then RiskLevel.Medium
           else RiskLevel.Low)
      ∧ (buildRiskAssessment files).areas
        = (if files.any (fun f => fileMatchesDatabase f.path) then [str "database"] else [])
          ++ (if files.any (fun f => fileMatchesAuthSecurity f.path) then [str "auth/security"] else [])
          ++ (if files.any (fun f => fileMatchesInfra f.path) then [str "infra"] else [])
          ++ (if files.any (fun f => fileMatchesConfig f.path) then [str "config"] else []))
    ∧ buildRiskAssessment [⟨FileStatus.Added, str "migrations/001.sql"⟩]
        = ⟨RiskLevel.High, [str "database"]⟩
    ∧ buildRiskAssessment [⟨FileStatus.Modified, str "config/app.yaml"⟩]
        = ⟨RiskLevel.Medium, [str "config"]⟩
    ∧ buildRiskAssessment [⟨FileStatus.Modified, str "src/util.ts"⟩]
        = ⟨RiskLevel.Low, []⟩ := by
  refine ⟨?_, by decide, by decide, by decide⟩
  intro files
  constructor
  · simp only [buildRiskAssessment, foldl_riskStep_hasHigh, foldl_riskStep_hasMedium,
      Bool.false_or]
  · simp only [buildRiskAssessment, riskOrder, List.filter_cons, List.filter_nil,
      foldl_contains_database, foldl_contains_auth, foldl_contains_infra,
      foldl_contains_config]
    cases h1 : files.any (fun f => fileMatchesDatabase f.path) <;>
      cases h2 : files.any (fun f => fileMatchesAuthSecurity f.path) <;>
      cases h3 : files.any (fun f => fileMatchesInfra f.path) <;>
      cases h4 : files.any (fun f => fileMatchesConfig f.path) <;> simp

/-! ### C8: testing lines -/

/-- C8: if some file is a test file the testing output is the single
checked line, otherwise it is exactly the three-line unchecked variant;
and the two example change sets behave as specified. -/
theorem testing_lines_spec :
    (∀ files : List FileChange, (∃ f ∈ files, isTestFile f = true) →
      buildTestingLines files = [str "- [x] Unit tests"])
    ∧ (∀ files : List FileChange, (∀ f ∈ files, isTestFile f = false) →
      buildTestingLines files
        = [str "- [ ] Unit tests", str "- [ ] Manual testing",
            str "- Please describe manual testing."])
    ∧ buildTestingLines [⟨FileStatus.Modified, str "src/a.ts"⟩, ⟨FileStatus.Added, str "src/a.test.ts"⟩]
        = [str "- [x] Unit tests"]
    ∧ buildTestingLines [⟨FileStatus.Modified, str "src/a.ts"⟩]
        = [str "- [ ] Unit tests", str "- [ ] Manual testing",
            str "- Please describe manual testing."] := by
  refine ⟨?_, ?_, by decide, by decide⟩
  · intro files h
    have hany : files.any isTestFile = true := by
      rw [List.any_eq_true]
      obtain ⟨f, hf, hp⟩ := h
      exact ⟨f, hf, hp⟩
    simp [buildTestingLines, hany]
  · intro files h
    have hany : files.any isTestFile = false := by
      rw [List.any_eq_false]
      intro f hf
      simp [h f hf]
    simp [buildTestingLines, hany]

/-- C8 witness: a change set with a `tests/` segment gets the single
checked line via the general theorem. -/
theorem testing_lines_spec_witness :
    buildTestingLines [⟨FileStatus.Added, str "tests/util.ts"⟩] = [str "- [x] Unit tests"] :=
  testing_lines_spec.1 _ (by decide)

/-! ### C9: diff stat counting -/

lemma startsWith_plus_not_minus (l : List Char)
    (h : startsWithChars (str "+") l = true) : startsWithChars (str "-") l = false := by
  cases l with
  | nil =>
    rw [show str "+" = ['+'] from rfl] at h
    simp [startsWithChars] at h
  | cons c cs =>
    rw [show str "+" = ['+'] from rfl] at h
    rw [show str "-" = ['-'] from rfl]
    simp only [startsWithChars, Bool.and_eq_true, beq_iff_eq] at h
    obtain ⟨hc, -⟩ := h
    subst hc
    simp [startsWithChars]

lemma foldl_summarizeStep (lines : List (List Char)) (acc : DiffSummary) :
    lines.foldl summarizeStep acc
      = ⟨acc.added + lines.countP
            (fun l => !isStructuralDiffLine l && startsWithChars (str "+") l),
         acc.removed + lines.countP
            (fun l => !isStructuralDiffLine l && startsWithChars (str "-") l)⟩ := by
  induction lines generalizing acc with
  | nil => simp
  | cons l ls ih =>
    simp only [List.foldl_cons, List.countP_cons]
    rw [ih]
    unfold summarizeStep
    by_cases hs : isStructuralDiffLine l = true
    · simp [hs] <;> omega
    · have hs' : isStructuralDiffLine l = false := by simpa using hs
      by_cases hp : startsWithChars (str "+") l = true
      · have hm := startsWith_plus_not_minus l hp
        simp [hs', hp, hm] <;> omega
      · have hp' : startsWithChars (str "+") l = false := by simpa using hp
        by_cases hm : startsWithChars (str "-") l = true
        · simp [hs', hp', hm] <;> omega
        · have hm' : startsWithChars (str "-") l = false := by simpa using hm
          simp [hs', hp', hm'] <;> omega

/-- C9: `summarizeDiff` counts exactly one added line per non-structural
line starting with `+` and one removed line per non-structural line
starting with `-`, skipping the five structural prefixes; it returns
zero counts on empty input, and the five-header example with `+x` and
`-y` counts one of each. -/
theorem diff_stat_counts :
    (∀ diffText : List Char,
      summarizeDiff diffText
        = ⟨(splitLinesCr diffText).countP
              (fun l => !isStructuralDiffLine l && startsWithChars (str "+") l),
           (splitLinesCr diffText).countP
              (fun l => !isStructuralDiffLine l && startsWithChars (str "-") l)⟩)
    ∧ summarizeDiff [] = ⟨0, 0⟩
    ∧ summarizeDiff (str "diff a b\nindex 000\n--- a\n+++ b\n@@ -1,2 +1,3 @@\n+x\n-y")
        = ⟨1, 1⟩ := by
  refine ⟨?_, by decide, by decide⟩
  intro diffText
  by_cases hempty : diffText.isEmpty = true
  · have hd : diffText = [] := by simpa using hempty
    subst hd
    decide
  · have hne : diffText.isEmpty = false := by simpa using hempty
    simp only [summarizeDiff, hne, Bool.false_eq_true, if_false]
    rw [foldl_summarizeStep]
    simp

/-! ### C7: change bullets -/

lemma sensitiveBullet_not_empty (signals : List (List Char)) :
    (sensitiveBullet signals).isEmpty = false := by
  show (str "Sensitive areas: " ++ joinChars (str ", ") signals ++ str ".").isEmpty = false
  rw [show str "Sensitive areas: " = 'S' :: str "ensitive areas: " from rfl]
  rfl

lemma touchesBullet_not_empty (focusAreas : List (List Char)) :
    (touchesBullet focusAreas).isEmpty = false := by
  show (str "Touches: " ++ formatList focusAreas 6 ++ str ".").isEmpty = false
  rw [show str "Touches: " = 'T' :: str "ouches: " from rfl]
  rfl

/-- `buildChangeBullets` in closed form: the cap of 6 never binds and
the four candidate bullets appear in their fixed priority order. -/
lemma buildChangeBullets_eq (files : List FileChange) :
    buildChangeBullets files
      = (if 0 < (changeSignals files).length
          then [sensitiveBullet (changeSignals files)] else [])
        ++ (if 0 < (changeFocusAreas files).length
            then [touchesBullet (changeFocusAreas files)] else [])
        ++ (if 0 < files.countP (fun f => fileTouchesUi f.path)
              ∧ 0 < files.countP (fun f => fileTouchesApi f.path)
            then [str "Cross-layer change: UI and API/backend updated."] else [])
        ++ (if files.any (fun f => fileTouchesDependencies f.path)
            then [str "Dependencies updated."] else []) := by
  cases files with
  | nil => decide
  | cons f fs =>
    simp only [buildChangeBullets, List.isEmpty_cons, Bool.false_eq_true, if_false]
    split_ifs with h1 h2 h3 h4 h4 h3 h4 h4 h2 h3 h4 h4 h3 h4 h4 <;>
      simp [pushBullet, sensitiveBullet_not_empty, touchesBullet_not_empty,
        (show (str "Cross-layer change: UI and API/backend updated.").isEmpty = false from rfl),
        (show (str "Dependencies updated.").isEmpty = false from rfl)]

/-- C7 counterexample: on the end-to-end example (`api/routes/users.ts`
added, `README.md` modified) the bullets are exactly the single
`Touches: API/backend.` bullet — no file-operation-counts bullet
`1 added, 1 modified.` and no top-folders bullet is produced. -/
theorem change_bullets_counterexample :
    buildChangeBullets [⟨FileStatus.Added, str "api/routes/users.ts"⟩,
        ⟨FileStatus.Modified, str "README.md"⟩]
      = [str "Touches: API/backend."]
    ∧ str "1 added, 1 modified." ∉
        buildChangeBullets [⟨FileStatus.Added, str "api/routes/users.ts"⟩,
          ⟨FileStatus.Modified, str "README.md"⟩] := by
  constructor
  · decide
  · decide

/-- C7 (amended): for every change set the bullets are, in fixed
priority order, an optional sensitive-areas bullet, an optional
focus-areas (`Touches:`) bullet, an optional cross-layer bullet, and an
optional `Dependencies updated.` bullet; at most 6 bullets are emitted;
and the end-to-end example yields exactly `Touches: API/backend.`. -/
theorem change_bullets_amended :
    (∀ files : List FileChange,
      buildChangeBullets files
        = (if 0 < (changeSignals files).length
            then [sensitiveBullet (changeSignals files)] else [])
          ++ (if 0 < (changeFocusAreas files).length
              then [touchesBullet (changeFocusAreas files)] else [])
          ++ (if 0 < files.countP (fun f => fileTouchesUi f.path)
                ∧ 0 < files.countP (fun f => fileTouchesApi f.path)
              then [str "Cross-layer change: UI and API/backend updated."] else [])
          ++ (if files.any (fun f => fileTouchesDependencies f.path)
              then [str "Dependencies updated."] else []))
    ∧ (∀ files : List FileChange, (buildChangeBullets files).length ≤ 6)
    ∧ buildChangeBullets [⟨FileStatus.Added, str "api/routes/users.ts"⟩,
          ⟨FileStatus.Modified, str "README.md"⟩]
        = [str "Touches: API/backend."] := by
  refine ⟨fun files => buildChangeBullets_eq files, ?_, by decide⟩
  intro files
  rw [buildChangeBullets_eq]
  split_ifs <;> simp

/-! ## GenerationOrchestrator: provider request and fallback
(`requestAiMarkdown`, `generateDescriptionAiEnhanced`) -/

/-- Decimal rendering of an `Int` (JS template interpolation). -/
def intChars (i : Int) : List Char := (toString i).data

/-- `stripMarkdownFences` from `extension.ts`. -/
def stripMarkdownFences (text : List Char) : List Char :=
  let trimmed := trimChars text
  if !(startsWithChars (str "```") trimmed) then trimmed
  else
    let lines := splitLinesCr trimmed
    if lines.length ≤ 2 then trimmed
    else trimChars (joinChars (str "\n") (lines.drop 1).dropLast)

/-- The JSON body of a provider response as `requestAiMarkdown` reads
it: not valid JSON, or the three fields it inspects (`error.message`,
`choices[0].message.content`, `choices[0].text`). -/
inductive AiBody where
  | invalid
  | parsed (errorMessage : Option (List Char)) (messageContent : Option (List Char))
      (choiceText : Option (List Char))
deriving DecidableEq

/-- The observable outcome of the `postJson` call: a rejection (network
error, or the timeout destroying the request) with its message, or a
complete response with status code and body. -/
inductive AiHttpOutcome where
  | failure (message : List Char)
  | response (statusCode : Int) (body : AiBody)
deriving DecidableEq

/-- JS `a || b` on nullable strings (an empty string is falsy). -/
def jsOrString (a b : Option (List Char)) : Option (List Char) :=
  match a with
  | some s => if s.isEmpty then b else some s
  | none => b

/-- `requestAiMarkdown` from `extension.ts` as a function of the
network outcome: a rejection propagates as the error; an unparsable
body, a non-2xx status, and missing or empty content each produce their
distinct error; success returns the fence-stripped content. -/
def requestAiMarkdown (outcome : AiHttpOutcome) : Except (List Char) (List Char) :=
  match outcome with
  | .failure m => .error m
  | .response statusCode body =>
    match body with
    | .invalid => .error (str "AI response was not valid JSON.")
    | .parsed errorMessage messageContent choiceText =>
      if statusCode < 200 ∨ 300 ≤ statusCode then
        match errorMessage with
        | some m =>
          if m.isEmpty then
            .error (str "AI request failed (" ++ intChars statusCode ++ str ").")
          else .error m
        | none => .error (str "AI request failed (" ++ intChars statusCode ++ str ").")
      else
        match jsOrString messageContent choiceText with
        | some c =>
          if c.isEmpty then .error (str "AI response did not include any content.")
          else .ok (stripMarkdownFences c)
        | none => .error (str "AI response did not include any content.")

/-- The report emitted by `generateDescriptionAiEnhanced` as a function
of the pre-computed baseline report and the provider outcome: the `try`
assigns the provider text, the `catch` restores `baselineMarkdown`. -/
def aiEnhancedResult (baselineMarkdown : List Char) (outcome : AiHttpOutcome) : List Char :=
  match requestAiMarkdown outcome with
  | .ok md => md
  | .error _ => baselineMarkdown

/-- C2: every provider failure — rejection (network error/timeout),
invalid JSON, non-2xx status, missing or empty content — leaves the
emitted report textually identical to the baseline report; the raw
provider error is never the result. -/
theorem ai_fallback_to_baseline :
    (∀ (baseline : List Char) (outcome : AiHttpOutcome) (msg : List Char),
      requestAiMarkdown outcome = .error msg →
      aiEnhancedResult baseline outcome = baseline)
    ∧ (∀ (baseline m : List Char), aiEnhancedResult baseline (.failure m) = baseline)
    ∧ (∀ (baseline : List Char) (sc : Int),
        aiEnhancedResult baseline (.response sc .invalid) = baseline)
    ∧ (∀ (baseline : List Char) (sc : Int) (body : AiBody), sc < 200 ∨ 300 ≤ sc →
        aiEnhancedResult baseline (.response sc body) = baseline)
    ∧ (∀ (baseline : List Char) (sc : Int) (em : Option (List Char)),
        200 ≤ sc ∧ sc < 300 →
        aiEnhancedResult baseline (.response sc (.parsed em none none)) = baseline)
    ∧ (∀ (baseline : List Char) (sc : Int) (em : Option (List Char)),
        200 ≤ sc ∧ sc < 300 →
        aiEnhancedResult baseline (.response sc (.parsed em (some []) (some []))) = baseline) := by
  refine ⟨?_, ?_, ?_, ?_, ?_, ?_⟩
  · intro baseline outcome msg h
    simp [aiEnhancedResult, h]
  · intro baseline m
    rfl
  · intro baseline sc
    rfl
  · intro baseline sc body h
    rcases body with _ | ⟨em, mc, ct⟩
    · rfl
    · simp only [aiEnhancedResult, requestAiMarkdown, if_pos h]
      rcases em with _ | m
      · rfl
      · cases hm : m.isEmpty <;> simp [hm]
  · intro baseline sc em h
    have hsc : ¬(sc < 200 ∨ 300 ≤ sc) := by omega
    simp [aiEnhancedResult, requestAiMarkdown, hsc, jsOrString]
  · intro baseline sc em h
    have hsc : ¬(sc < 200 ∨ 300 ≤ sc) := by omega
    simp [aiEnhancedResult, requestAiMarkdown, hsc, jsOrString]

/-- C2 witness: a network failure, a 500 with no error message, and a
200 with no content all fall back to the baseline report. -/
theorem ai_fallback_to_baseline_witness :
    aiEnhancedResult (str "baseline report") (.failure (str "Request timed out")) = str "baseline report"
    ∧ aiEnhancedResult (str "baseline report") (.response 500 (.parsed none none none)) = str "baseline report"
    ∧ aiEnhancedResult (str "baseline report") (.response 200 (.parsed none none none)) = str "baseline report" :=
  ⟨ai_fallback_to_baseline.2.1 _ _,
    ai_fallback_to_baseline.2.2.2.1 _ 500 _ (by omega),
    ai_fallback_to_baseline.2.2.2.2.1 _ 200 none (by omega)⟩

/-! ## ReportAssembler (`buildMarkdown`, `buildMarkdownFromStagedData`) -/

/-- The display label of a `FileStatus` (the union-type strings of
`template.ts`). -/
def statusLabel : FileStatus → List Char
  | .Added => str "Added"
  | .Modified => str "Modified"
  | .Deleted => str "Deleted"
  | .Renamed => str "Renamed"

/-- The display label of a `RiskLevel`. -/
def riskLevelLabel : RiskLevel → List Char
  | .Low => str "Low"
  | .Medium => str "Medium"
  | .High => str "High"

/-- The `TemplateOptions` that `buildMarkdownFromStagedData` passes to
`buildMarkdown` in `extension.ts`. -/
structure TemplateOptions where
  files : List FileChange
  changeBullets : List (List Char)
  releaseNotesLines : List (List Char)
  testingLines : List (List Char)
  riskLevel : RiskLevel
  areasImpacted : List (List Char)
  added : Nat
  removed : Nat
  truncated : Bool
  maxLines : Int
  analyzedLines : Nat
  summaryLabel : List Char
  diffLabel : List Char
  emptyChangesLine : List Char
  includeFilesSection : Bool

/-- Prefix every line with `"- "` (the section body rendering). -/
def dashLines (lines : List (List Char)) : List (List Char) :=
  lines.map (fun l => str "- " ++ l)

/-- Modelled from the spec: the current revision of `template.ts` is
missing from the source snapshot — the `buildMarkdown` revisions that
are present predate the `releaseNotesLines`, `riskLevel` and
`areasImpacted` options which `buildMarkdownFromStagedData` passes — so
the report body is modelled from §4.6: the fixed sections **Summary**
(file count + label, diff stat line, optional truncation note, risk
line with areas parenthetical), **Changes** (bullets or the empty-state
line), **Release Notes** (lines or a fallback line), **Files changed**
(only when the inclusion flag is set; each record as
`"<status>: <displayPath>"`, or the empty-state line), **Testing**,
**Risk / Impact** (level + areas or "none detected"), **Rollout /
Backout** (two placeholder lines); every section is a `##` heading
followed by `-`-prefixed lines and a trailing blank line. -/
def buildMarkdownLines (o : TemplateOptions) : List (List Char) :=
  let fileCountLine :=
    o.summaryLabel ++ str " in " ++ natChars o.files.length ++ str " file"
      ++ (if o.files.length = 1 then [] else str "s") ++ str "."
  let statLine :=
    str "Diff stats (" ++ o.diffLabel ++ str "): +" ++ natChars o.added
      ++ str " / -" ++ natChars o.removed ++ str " lines."
  let truncNote :=
    if o.truncated then
      [str "Diff analysis truncated to " ++ intChars o.maxLines
        ++ str " lines (analyzed " ++ natChars o.analyzedLines ++ str ")."]
    else []
  let riskLine :=
    str "Risk: " ++ riskLevelLabel o.riskLevel
      ++ (if o.areasImpacted.isEmpty then []
          else str " (" ++ joinChars (str ", ") o.areasImpacted ++ str ")") ++ str "."
  let summaryLines := [fileCountLine, statLine] ++ truncNote ++ [riskLine]
  let changesLines :=
    if o.changeBullets.isEmpty then [o.emptyChangesLine] else o.changeBullets
  let releaseLines :=
    if o.releaseNotesLines.isEmpty then
      [str "No changelog or release-docs updates detected (add one if user-facing)."]
    else o.releaseNotesLines
  let filesLines :=
    dashLines (o.files.map (fun f => statusLabel f.status ++ str ": " ++ f.path))
  let testLines :=
    if o.testingLines.isEmpty then [str "- [ ] Not run (not specified)."]
    else o.testingLines
  let levelLine := str "Level: " ++ riskLevelLabel o.riskLevel
  let areasLine :=
    str "Areas impacted: "
      ++ (if o.areasImpacted.isEmpty then str "none detected"
          else joinChars (str ", ") o.areasImpacted)
  [str "## Summary"] ++ dashLines summaryLines ++ [[]]
    ++ [str "## Changes"] ++ dashLines changesLines ++ [[]]
    ++ [str "## Release Notes"] ++ dashLines releaseLines ++ [[]]
    ++ (if o.includeFilesSection then
          [str "## Files changed"]
            ++ (if o.files.isEmpty then dashLines [o.emptyChangesLine] else filesLines)
            ++ [[]]
        else [])
    ++ [str "## Testing"] ++ testLines ++ [[]]
    ++ [str "## Risk / Impact"] ++ dashLines [levelLine, areasLine] ++ [[]]
    ++ [str "## Rollout / Backout"]
    ++ dashLines [str "Rollout: TBD", str "Backout: TBD"] ++ [[]]

/-- The assembled Markdown report (lines joined with `\n`). -/
def buildMarkdown (o : TemplateOptions) : List Char :=
  joinChars (str "\n") (buildMarkdownLines o)

/-- The `StagedData` record of `extension.ts`. -/
structure StagedData where
  files : List FileChange
  changeBullets : List (List Char)
  releaseNotesLines : List (List Char)
  testingLines : List (List Char)
  risk : RiskAssessment
  diffOutput : List Char
  preparedDiff : PreparedDiff
  added : Nat
  removed : Nat
  maxDiffLines : Int
  includeFilesSection : Bool
  copyToClipboard : Bool

/-- The options `buildMarkdownFromStagedData` constructs. -/
def stagedTemplateOptions (d : StagedData) : TemplateOptions :=
  { files := d.files
    changeBullets := d.changeBullets
    releaseNotesLines := d.releaseNotesLines
    testingLines := d.testingLines
    riskLevel := d.risk.level
    areasImpacted := d.risk.areas
    added := d.added
    removed := d.removed
    truncated := d.preparedDiff.truncated
    maxLines := d.maxDiffLines
    analyzedLines := d.preparedDiff.analyzedLines
    summaryLabel := str "Staged changes"
    diffLabel := str "staged"
    emptyChangesLine := str "No staged files detected."
    includeFilesSection := d.includeFilesSection }

/-- `buildMarkdownFromStagedData` from `extension.ts`. -/
def buildMarkdownFromStagedData (d : StagedData) : List Char :=
  buildMarkdown (stagedTemplateOptions d)

/-- A line beginning a Markdown section (first character `#`; every
non-heading line the assembler emits is blank or starts with `-` or
`[`-free dash content). -/
def isHeadingLine (l : List Char) : Bool := l.head? == some '#'

lemma filter_heading_dash (lines : List (List Char)) :
    (dashLines lines).filter isHeadingLine = [] := by
  induction lines with
  | nil => rfl
  | cons x xs ih =>
    have hx : isHeadingLine (str "- " ++ x) = false := by
      show ((str "- " ++ x).head? == some '#') = false
      rw [show str "- " ++ x = '-' :: (' ' :: x) from rfl]
      rfl
    simp only [dashLines, List.map_cons, List.filter_cons, hx]
    simpa [dashLines] using ih

/-- C1: for every input, the assembled report consists of the fixed
sections in the fixed order — Summary, Changes, Release Notes, Files
changed (exactly when the inclusion flag is set), Testing, Risk /
Impact, Rollout / Backout — with no section missing, reordered or
renamed (the heading lines of the output are exactly those, in that
order); when the Files changed section is present every record is
rendered as `- <status>: <displayPath>`; and the report string is the
line sequence joined by newlines. -/
theorem report_fixed_sections :
    (∀ o : TemplateOptions,
      ((∀ l ∈ o.testingLines, isHeadingLine l = false) →
        (buildMarkdownLines o).filter isHeadingLine
          = [str "## Summary", str "## Changes", str "## Release Notes"]
            ++ (if o.includeFilesSection then [str "## Files changed"] else [])
            ++ [str "## Testing", str "## Risk / Impact", str "## Rollout / Backout"])
      ∧ (o.includeFilesSection = true → ∀ f ∈ o.files,
          (str "- " ++ (statusLabel f.status ++ str ": " ++ f.path)) ∈ buildMarkdownLines o))
    ∧ (∀ o : TemplateOptions, buildMarkdown o = joinChars (str "\n") (buildMarkdownLines o))
    ∧ (∀ d : StagedData, buildMarkdownFromStagedData d = buildMarkdown (stagedTemplateOptions d)) := by
  refine ⟨?_, fun o => rfl, fun d => rfl⟩
  intro o
  constructor
  · intro htest
    have hTfilter : o.testingLines.filter isHeadingLine = [] :=
      List.filter_eq_nil.mpr (fun a ha => by simp [htest a ha])
    unfold buildMarkdownLines
    cases hinc : o.includeFilesSection <;>
      simp [List.filter_append, filter_heading_dash, hTfilter, List.filter_cons,
        apply_ite (List.filter isHeadingLine),
        (show isHeadingLine (str "## Summary") = true from rfl),
        (show isHeadingLine (str "## Changes") = true from rfl),
        (show isHeadingLine (str "## Release Notes") = true from rfl),
        (show isHeadingLine (str "## Files changed") = true from rfl),
        (show isHeadingLine (str "## Testing") = true from rfl),
        (show isHeadingLine (str "## Risk / Impact") = true from rfl),
        (show isHeadingLine (str "## Rollout / Backout") = true from rfl),
        (show isHeadingLine ([] : List Char) = false from rfl),
        (show isHeadingLine (str "- [ ] Not run (not specified).") = false from rfl)]
  · intro hinc f hf
    have hne : o.files.isEmpty = false := by
      cases hE : o.files.isEmpty
      · rfl
      · rw [List.isEmpty_iff] at hE
        rw [hE] at hf
        simp at hf
    have hmem : (str "- " ++ (statusLabel f.status ++ str ": " ++ f.path))
        ∈ dashLines (o.files.map (fun f => statusLabel f.status ++ str ": " ++ f.path)) := by
      unfold dashLines
      exact List.mem_map.mpr ⟨_, List.mem_map.mpr ⟨f, hf, rfl⟩, rfl⟩
    unfold buildMarkdownLines
    simp only [hinc, if_true, hne, Bool.false_eq_true, if_false]
    simp only [List.mem_append]
    tauto

/-- C1 witness options: one added file, bullets, default testing lines,
`includeFilesSection` on. -/
def reportExampleOptions : TemplateOptions :=
  { files := [⟨FileStatus.Added, str "api/routes/users.ts"⟩]
    changeBullets := [str "Touches: API/backend."]
    releaseNotesLines := []
    testingLines := [str "- [ ] Unit tests", str "- [ ] Manual testing",
      str "- Please describe manual testing."]
    riskLevel := RiskLevel.Low
    areasImpacted := []
    added := 2
    removed := 1
    truncated := false
    maxLines := 2000
    analyzedLines := 7
    summaryLabel := str "Staged changes"
    diffLabel := str "staged"
    emptyChangesLine := str "No staged files detected."
    includeFilesSection := true }

/-- C1 witness: on a concrete input with the files section enabled, the
headings are exactly the seven fixed sections in order, and the added
file is rendered as `- Added: api/routes/users.ts`. -/
theorem report_fixed_sections_witness :
    (buildMarkdownLines reportExampleOptions).filter isHeadingLine
      = [str "## Summary", str "## Changes", str "## Release Notes", str "## Files changed",
          str "## Testing", str "## Risk / Impact", str "## Rollout / Backout"]
    ∧ (str "- " ++ (statusLabel FileStatus.Added ++ str ": " ++ str "api/routes/users.ts"))
        ∈ buildMarkdownLines reportExampleOptions := by
  constructor
  · have h := (report_fixed_sections.1 reportExampleOptions).1 (by decide)
    rw [h]
    decide
  · exact (report_fixed_sections.1 reportExampleOptions).2 rfl
      ⟨FileStatus.Added, str "api/routes/users.ts"⟩ (by decide)

end PRD
